import Mathlib

/-!
Verification development for the cvxsimulator portfolio-accounting core:
the incremental position-accounting state machine (Accumulator/Builder) and
the frozen portfolio record (Ledger/Portfolio).

The repository ships the core as a Python package (`cvx.simulator`); the
checkout at hand contains its documentation, README doctests and the executed
notebook `book/docs/notebooks/OneAssetFadingOut.ipynb`, but not the Python
modules themselves.  The definitions below therefore model the core from the
specification, with the notebook's executed outputs and the README doctests
serving as concrete reference points.  Prices and cash are modelled as exact
rationals (ℚ); missing data ("no data"/NaN columns) is modelled as
`Option.none`.
-/

namespace CvxSimulator

/-- Modelled from the spec: the error taxonomy of §7 for the missing Python
module `cvx.simulator` — configuration errors at construction, domain errors
for untradable asset/time writes, usage errors for protocol violations. -/
inductive Err where
  | configurationError
  | domainError
  | usageError
deriving DecidableEq

/-- Modelled from the spec: the lifecycle of the Accumulator's iteration
protocol (missing Python `Builder.__iter__`): not yet iterated, paused at
step `k`, or fully consumed. -/
inductive Status where
  | fresh
  | active (k : Nat)
  | exhausted
deriving DecidableEq

/-- Modelled from the spec: the pluggable trading-cost model (missing Python
cost-model classes): one capability taking prior positions, prior prices,
current positions and current prices to a non-negative cost scalar. -/
structure CostModel (m : Nat) where
  cost : (Fin m → Option ℚ) → (Fin m → Option ℚ) → (Fin m → Option ℚ) →
    (Fin m → Option ℚ) → ℚ
  cost_nonneg : ∀ pu pp u p, 0 ≤ cost pu pp u p

/-- Modelled from the spec: the default zero-cost model. -/
def zeroCost (m : Nat) : CostModel m :=
  ⟨fun _ _ _ _ => 0, fun _ _ _ _ => le_refl 0⟩

/-- Modelled from the spec: a PriceTable over `n` timestamps and `m` assets —
a time axis of timestamps plus a partial matrix of prices, `none` marking
"no data" (the NaN cells of the missing pandas price frame). -/
structure PriceTable (n m : Nat) where
  times : Fin n → Int
  price : Fin n → Fin m → Option ℚ

/-- Price lookup with a `Nat` time index; out-of-range lookups give no data. -/
def PriceTable.priceAt (pt : PriceTable n m) (t : Nat) (j : Fin m) : Option ℚ :=
  if h : t < n then pt.price ⟨t, h⟩ j else none

/-- Timestamp lookup with a `Nat` time index (0 out of range). -/
def PriceTable.timeAt (pt : PriceTable n m) (t : Nat) : Int :=
  if h : t < n then pt.times ⟨t, h⟩ else 0

/-- Modelled from the spec: an interior no-data gap — a missing price lying
strictly between two valid prices of the same column. -/
def PriceTable.hasInteriorGap (pt : PriceTable n m) : Prop :=
  ∃ j : Fin m, ∃ t1 t2 t3 : Fin n, t1 < t2 ∧ t2 < t3 ∧
    pt.price t1 j ≠ none ∧ pt.price t2 j = none ∧ pt.price t3 j ≠ none

instance (pt : PriceTable n m) : Decidable pt.hasInteriorGap :=
  inferInstanceAs (Decidable (∃ j : Fin m, ∃ t1 t2 t3 : Fin n, t1 < t2 ∧ t2 < t3 ∧
    pt.price t1 j ≠ none ∧ pt.price t2 j = none ∧ pt.price t3 j ≠ none))

/-- Modelled from the spec: the time axis must be strictly increasing. -/
def PriceTable.strictTimes (pt : PriceTable n m) : Prop :=
  ∀ t1 t2 : Fin n, t1 < t2 → pt.times t1 < pt.times t2

instance (pt : PriceTable n m) : Decidable pt.strictTimes :=
  inferInstanceAs (Decidable (∀ t1 t2 : Fin n, t1 < t2 → pt.times t1 < pt.times t2))

/-- Row lookup in a position table with a `Nat` time index. -/
def rowAt (pos : Fin n → Fin m → Option ℚ) (t : Nat) : Fin m → Option ℚ :=
  fun j => if h : t < n then pos ⟨t, h⟩ j else none

/-- Position row of the step before `t`: flat (no holdings) before step 0. -/
def priorRow (pos : Fin n → Fin m → Option ℚ) (t : Nat) : Fin m → Option ℚ :=
  if t = 0 then fun _ => none else rowAt pos (t - 1)

/-- Modelled from the spec: mark-to-market value of holdings — units times
price summed over the assets where both are defined. -/
def value (prices units : Fin m → Option ℚ) : ℚ :=
  ∑ j : Fin m, ((prices j).bind fun p => (units j).map fun u => u * p).getD 0

/-- Modelled from the spec: cash value of the trade between two position
rows — change in units times current price, summed over assets with a
defined current price (no price, no transaction: a delisted position is
dropped, not liquidated to cash). -/
def tradeValue (prices prev cur : Fin m → Option ℚ) : ℚ :=
  ∑ j : Fin m, ((prices j).map fun p => ((cur j).getD 0 - (prev j).getD 0) * p).getD 0

/-- Modelled from the spec: the StepState snapshot yielded on each iteration
step (missing Python `State`): timestamps seen so far, tradable assets,
current prices, holdings written so far and current AUM. -/
@[ext]
structure StepState (m : Nat) where
  seenTimes : List Int
  assets : Fin m → Bool
  prices : Fin m → Option ℚ
  units : Fin m → Option ℚ
  aum : ℚ

/-- Modelled from the spec: the Accumulator (missing Python `Builder`): the
read-only price table, the initial AUM, the cost model, the position table
under construction, the running cash balance reported mid-loop, and the
iteration status. -/
@[ext]
structure Builder (n m : Nat) where
  prices : PriceTable n m
  initialAum : ℚ
  costModel : CostModel m
  pos : Fin n → Fin m → Option ℚ
  cash : ℚ
  status : Status

/-- Modelled from the spec: Accumulator construction — fails with
`configurationError` on an interior no-data gap, a non-increasing time axis
or a non-positive initial AUM; otherwise starts with an empty position
table, cash equal to the initial AUM, and iteration not yet begun. -/
def mkBuilder (pt : PriceTable n m) (a : ℚ) (cm : CostModel m) :
    Except Err (Builder n m) :=
  if pt.hasInteriorGap then .error .configurationError
  else if ¬ pt.strictTimes then .error .configurationError
  else if a ≤ 0 then .error .configurationError
  else .ok ⟨pt, a, cm, fun _ _ => none, a, .fresh⟩

/-- Modelled from the spec: the StepState snapshot for step `k` — the
timestamps up to and including `k`, tradability and prices at `k`, the prior
step's holdings, and the AUM as cash plus the mark-to-market value of those
holdings at the current prices. -/
def Builder.stateAt (b : Builder n m) (k : Nat) : StepState m where
  seenTimes := (List.range (k + 1)).map fun i => b.prices.timeAt i
  assets := fun j => (b.prices.priceAt k j).isSome
  prices := fun j => b.prices.priceAt k j
  units := priorRow b.pos k
  aum := b.cash + value (fun j => b.prices.priceAt k j) (priorRow b.pos k)

/-- Modelled from the spec: `set_units` — writes a row of unit counts at the
current step; a value for an asset with no price at the current step is
rejected with `domainError`; a successful write stores the row and adjusts
the running cash by the value of the implied trade. -/
def Builder.commitUnits (b : Builder n m) (row : Fin m → Option ℚ) :
    Except Err (Builder n m) :=
  match b.status with
  | .active k =>
      if ∃ j : Fin m, row j ≠ none ∧ b.prices.priceAt k j = none then
        .error .domainError
      else if hk : k < n then
        .ok { b with
          pos := Function.update b.pos ⟨k, hk⟩ row
          cash := b.cash -
            tradeValue (fun j => b.prices.priceAt k j) (priorRow b.pos k) row }
      else .error .usageError
  | _ => .error .usageError

/-- Modelled from the spec: the weights-to-units conversion
`units = weight × AUM / price`, elementwise on the written assets. -/
def weightsToUnits (prices : Fin m → Option ℚ) (a : ℚ) (w : Fin m → Option ℚ) :
    Fin m → Option ℚ :=
  fun j => (w j).map fun wj => wj * a / (prices j).getD 0

/-- Modelled from the spec: the cash-amounts-to-units conversion
`units = notional / price`, elementwise on the written assets. -/
def cashToUnits (prices : Fin m → Option ℚ) (c : Fin m → Option ℚ) :
    Fin m → Option ℚ :=
  fun j => (c j).map fun cj => cj / (prices j).getD 0

/-- Modelled from the spec: `set_weights` — converts fractional weights of
the current AUM to units at the current prices and writes them. -/
def Builder.commitWeights (b : Builder n m) (w : Fin m → Option ℚ) :
    Except Err (Builder n m) :=
  match b.status with
  | .active k =>
      b.commitUnits (weightsToUnits (fun j => b.prices.priceAt k j) (b.stateAt k).aum w)
  | _ => .error .usageError

/-- Modelled from the spec: `set_cash_amounts` — converts dollar notionals to
units at the current prices and writes them. -/
def Builder.commitCashAmounts (b : Builder n m) (c : Fin m → Option ℚ) :
    Except Err (Builder n m) :=
  match b.status with
  | .active k => b.commitUnits (cashToUnits (fun j => b.prices.priceAt k j) c)
  | _ => .error .usageError

/-- Modelled from the spec: `set_aum` — fixes the AUM used by subsequent
conversions at this step by adjusting the running cash against the value of
the current holdings. -/
def Builder.setAum (b : Builder n m) (a : ℚ) : Builder n m :=
  match b.status with
  | .active k =>
      { b with cash := a - value (fun j => b.prices.priceAt k j) (rowAt b.pos k) }
  | _ => b

/-- Modelled from the spec: advancing the iteration past the current step —
to the next timestamp, or to the exhausted state after the last one. -/
def Builder.next (b : Builder n m) : Builder n m :=
  match b.status with
  | .active k =>
      if k + 1 < n then { b with status := .active (k + 1) }
      else { b with status := .exhausted }
  | _ => b

/-- Modelled from the spec: beginning a traversal — only a never-iterated
Accumulator may start one; re-iterating an exhausted (or already running)
Accumulator fails with `usageError`. -/
def Builder.startIter (b : Builder n m) : Except Err (Builder n m) :=
  match b.status with
  | .fresh =>
      if 0 < n then .ok { b with status := .active 0 }
      else .ok { b with status := .exhausted }
  | _ => .error .usageError

/-- Number of steps already consumed by the iteration. -/
def Builder.consumed (b : Builder n m) : Nat :=
  match b.status with
  | .fresh => 0
  | .active k => k + 1
  | .exhausted => n

/-- Modelled from the spec: the frozen Ledger (missing Python `Portfolio`):
the finalized price and position tables, the initial AUM, the cost model and
the consumed horizon of the time axis; all analytics are derived from these. -/
structure Ledger (n m : Nat) where
  prices : PriceTable n m
  pos : Fin n → Fin m → Option ℚ
  initialAum : ℚ
  costModel : CostModel m
  horizon : Nat

/-- Modelled from the spec: `build()` — freezing the position table into a
Ledger; fails with `usageError` when iteration was never started. -/
def Builder.build (b : Builder n m) : Except Err (Ledger n m) :=
  match b.status with
  | .fresh => .error .usageError
  | _ => .ok ⟨b.prices, b.pos, b.initialAum, b.costModel, b.consumed⟩

/-- Prices of the Ledger at a `Nat` time index. -/
def Ledger.pricesAt (L : Ledger n m) (t : Nat) : Fin m → Option ℚ :=
  fun j => L.prices.priceAt t j

/-- Prices of the step before `t` (all undefined before step 0). -/
def Ledger.priorPricesAt (L : Ledger n m) (t : Nat) : Fin m → Option ℚ :=
  if t = 0 then fun _ => none else L.pricesAt (t - 1)

/-- Units held at time `t` for asset `j`, no data where unset. -/
def Ledger.unitsAt (L : Ledger n m) (t : Nat) (j : Fin m) : Option ℚ :=
  rowAt L.pos t j

/-- Value of the trade executed at step `t` (from the prior row, flat before
step 0, to the row at `t`, at the prices of `t`). -/
def Ledger.stepTrade (L : Ledger n m) (t : Nat) : ℚ :=
  tradeValue (L.pricesAt t) (priorRow L.pos t) (rowAt L.pos t)

/-- Trading cost charged at step `t` by the Ledger's cost model. -/
def Ledger.stepCost (L : Ledger n m) (t : Nat) : ℚ :=
  L.costModel.cost (priorRow L.pos t) (L.priorPricesAt t) (rowAt L.pos t)
    (L.pricesAt t)

/-- Modelled from the spec: the cash series — a single sequential walk of the
time axis keeping a running balance, deducting each step's trade value and
trading cost (the step-0 trade starting from a flat position). -/
def Ledger.cashAt (L : Ledger n m) : Nat → ℚ
  | 0 => L.initialAum - L.stepTrade 0 - L.stepCost 0
  | t + 1 => L.cashAt t - L.stepTrade (t + 1) - L.stepCost (t + 1)

/-- Modelled from the spec: equity per asset and time — units times price,
no data where either is undefined. -/
def Ledger.equityAt (L : Ledger n m) (t : Nat) (j : Fin m) : Option ℚ :=
  (L.pricesAt t j).bind fun p => (L.unitsAt t j).map fun u => u * p

/-- Modelled from the spec: NAV — cash plus the equity sum, skipping
undefined entries. -/
def Ledger.navAt (L : Ledger n m) (t : Nat) : ℚ :=
  L.cashAt t + ∑ j : Fin m, (L.equityAt t j).getD 0

/-- Modelled from the spec: weights — equity over NAV, no data where equity
is undefined. -/
def Ledger.weightAt (L : Ledger n m) (t : Nat) (j : Fin m) : Option ℚ :=
  (L.equityAt t j).map fun e => e / L.navAt t

/-- Modelled from the spec: one full pass of the cooperative iteration
handshake — while the Accumulator is paused at a step, yield the StepState,
let the strategy choose a position row and an AUM, commit them, and advance;
the fuel bounds the number of steps. -/
def iterateAux (strat : StepState m → (Fin m → Option ℚ) × ℚ) :
    Nat → Builder n m → Except Err (List (StepState m) × Builder n m)
  | 0, b => .ok ([], b)
  | fuel + 1, b =>
      match b.status with
      | .active k =>
          match b.commitUnits (strat (b.stateAt k)).1 with
          | .error e => .error e
          | .ok b1 =>
              match iterateAux strat fuel ((b1.setAum (strat (b.stateAt k)).2).next) with
              | .error e => .error e
              | .ok (sts, bF) => .ok (b.stateAt k :: sts, bF)
      | _ => .ok ([], b)

/-- Modelled from the spec: a complete traversal of the Accumulator driven by
a strategy that answers every yielded StepState with a position row (in
units) and an AUM. -/
def Builder.runWith (b : Builder n m)
    (strat : StepState m → (Fin m → Option ℚ) × ℚ) :
    Except Err (List (StepState m) × Builder n m) :=
  match b.startIter with
  | .error e => .error e
  | .ok b0 => iterateAux strat n b0

/-- Replacing the Accumulator's trading-cost model, all else unchanged. -/
def Builder.withCost (b : Builder n m) (cm : CostModel m) : Builder n m :=
  { b with costModel := cm }

/-- The E1 price table of the notebook OneAssetFadingOut: asset A constant at
100 for four days, asset B at 200 for two days and then no data. -/
def e1Prices : PriceTable 4 2 where
  times := fun i => (i.val : Int)
  price := fun t j => if j = 0 then some 100 else if t.val < 2 then some 200 else none

/-- The E1 strategy: equal weights 1/N over the currently tradable assets at
every step, keeping the AUM reported by the current StepState. -/
def e1Strat : StepState 2 → (Fin 2 → Option ℚ) × ℚ := fun st =>
  (weightsToUnits st.prices st.aum
    (fun j => if st.assets j then
        some (1 / ∑ i : Fin 2, if st.assets i then (1 : ℚ) else 0) else none),
   st.aum)

/-- The freshly constructed E1 Accumulator with initial AUM 2000. -/
def e1B0 : Builder 4 2 := ⟨e1Prices, 2000, zeroCost 2, fun _ _ => none, 2000, .fresh⟩

/-- The position row the E1 strategy commits at step `t`. -/
def e1r (t : Nat) : Fin 2 → Option ℚ :=
  fun j => if j = 0 then some 10 else if t < 2 then some 5 else none

/-- The E1 position table holding the rows committed up to step `t`. -/
def e1pos (t : Nat) : Fin 4 → Fin 2 → Option ℚ :=
  fun s j => if s.val ≤ t then e1r s.val j else none

/-- The E1 Accumulator as it pauses at step `k`, before the commit of that
step. -/
def e1BA (k : Nat) : Builder 4 2 :=
  ⟨e1Prices, 2000, zeroCost 2,
    if k = 0 then (fun _ _ => none) else e1pos (k - 1),
    if k = 0 then 2000 else 0, .active k⟩

/-- The StepState yielded at step `k` of the E1 run. -/
def e1St (k : Nat) : StepState 2 where
  seenTimes := (List.range (k + 1)).map fun i => (i : Int)
  assets := fun j => decide (j = 0) || decide (k < 2)
  prices := fun j => if j = 0 then some 100 else if k < 2 then some 200 else none
  units := fun j =>
    if k = 0 then none
    else if j = 0 then some 10 else if k ≤ 2 then some 5 else none
  aum := if k < 2 then 2000 else 1000

/-- The E1 Accumulator right after the commit of step `k`. -/
def e1C (k : Nat) : Builder 4 2 := ⟨e1Prices, 2000, zeroCost 2, e1pos k, 0, .active k⟩

/-- The exhausted E1 Accumulator after the full traversal. -/
def e1Final : Builder 4 2 := ⟨e1Prices, 2000, zeroCost 2, e1pos 3, 0, .exhausted⟩

/-- The four StepStates yielded by the E1 traversal. -/
def e1States : List (StepState 2) := [e1St 0, e1St 1, e1St 2, e1St 3]

/-- The whole E1 pipeline: construct the Accumulator and traverse it with the
equal-weights strategy. -/
def e1Run : Except Err (List (StepState 2) × Builder 4 2) :=
  match mkBuilder e1Prices 2000 (zeroCost 2) with
  | .error e => .error e
  | .ok b => b.runWith e1Strat

/-- Fallback Ledger used only to totalize extraction from an Except value. -/
def dummyLedger (n m : Nat) : Ledger n m :=
  ⟨⟨fun _ => 0, fun _ _ => none⟩, fun _ _ => none, 1, zeroCost m, 0⟩

/-- The Ledger built from the E1 run. -/
def e1L : Ledger 4 2 :=
  match e1Run with
  | .ok (_, bF) =>
      match bF.build with
      | .ok L => L
      | .error _ => dummyLedger 4 2
  | .error _ => dummyLedger 4 2

/-- The E1 Ledger spelled out as a literal. -/
def e1Led : Ledger 4 2 := ⟨e1Prices, e1pos 3, 2000, zeroCost 2, 4⟩

/-- One-asset, one-step price table with price 10, for concrete witnesses. -/
def w4Prices : PriceTable 1 1 := ⟨fun _ => 0, fun _ _ => some 10⟩

/-- An Accumulator paused at its only step, with AUM 100, for witnesses. -/
def w4B : Builder 1 1 := ⟨w4Prices, 100, zeroCost 1, fun _ _ => none, 100, .active 0⟩

/-- One-asset, two-step price table with constant price 1, for witnesses. -/
def w5Prices : PriceTable 2 1 := ⟨fun i => (i.val : Int), fun _ _ => some 1⟩

/-- A Ledger holding one unit at both steps, for the no-look-ahead witness. -/
def w5L1 : Ledger 2 1 := ⟨w5Prices, fun _ _ => some 1, 1, zeroCost 1, 2⟩

/-- A Ledger agreeing with `w5L1` at step 0 but differing at step 1. -/
def w5L2 : Ledger 2 1 :=
  ⟨w5Prices, fun t _ => if t.val = 0 then some 1 else some 2, 1, zeroCost 1, 2⟩

lemma iterateAux_stopped (strat : StepState m → (Fin m → Option ℚ) × ℚ)
    (fuel : Nat) (b : Builder n m) (h : b.status = Status.exhausted) :
    iterateAux strat fuel b = .ok ([], b) := by
  cases fuel with
  | zero => rfl
  | succ fuel => simp only [iterateAux, h]

lemma iterateAux_step (strat : StepState m → (Fin m → Option ℚ) × ℚ)
    (fuel fuel1 : Nat) (hf : fuel1 = fuel + 1) (b b1 : Builder n m) (k : Nat)
    (st : StepState m) (row : Fin m → Option ℚ) (a : ℚ)
    (hst : b.status = Status.active k) (hstate : b.stateAt k = st)
    (hstrat : strat st = (row, a)) (hcommit : b.commitUnits row = .ok b1) :
    iterateAux strat fuel1 b =
      (iterateAux strat fuel ((b1.setAum a).next)).map fun r => (st :: r.1, r.2) := by
  subst hf
  simp only [iterateAux, hst, hstate, hstrat, hcommit]
  cases iterateAux strat fuel ((b1.setAum a).next) with
  | error e => rfl
  | ok r => rcases r with ⟨sts, bF⟩; rfl

lemma e1_state0 : (e1BA 0).stateAt 0 = e1St 0 := by
  unfold Builder.stateAt e1BA e1St e1Prices
  refine StepState.ext ?_ ?_ ?_ ?_ ?_
  · decide
  · funext j; revert j; decide
  · funext j; revert j; decide
  · funext j; revert j; decide
  · simp only [value, PriceTable.priceAt, priorRow, rowAt, e1pos, e1r, Fin.sum_univ_two]
    norm_num [rowAt, e1pos, e1r]

lemma e1_strat0 : e1Strat (e1St 0) = (e1r 0, 2000) := by
  unfold e1Strat e1St weightsToUnits e1r
  simp only [Fin.sum_univ_two]
  norm_num
  funext j
  fin_cases j <;> norm_num

lemma e1_commit0 : (e1BA 0).commitUnits (e1r 0) = .ok (e1C 0) := by
  simp only [Builder.commitUnits, show (e1BA 0).status = Status.active 0 from rfl]
  rw [if_neg (by decide), dif_pos (by norm_num)]
  simp only [Except.ok.injEq]
  refine Builder.ext rfl rfl rfl ?_ ?_ rfl
  · funext s j; revert s j; decide
  · simp only [tradeValue, Fin.sum_univ_two, e1BA, e1C, PriceTable.priceAt, e1Prices,
      priorRow, rowAt, e1pos, e1r]
    norm_num [rowAt, e1pos, e1r]

lemma e1_setAum0 : (e1C 0).setAum 2000 = e1C 0 := by
  simp only [Builder.setAum, show (e1C 0).status = Status.active 0 from rfl]
  refine Builder.ext rfl rfl rfl rfl ?_ rfl
  simp only [value, rowAt, e1C, e1pos, e1r, PriceTable.priceAt, e1Prices, Fin.sum_univ_two]
  norm_num [rowAt, e1pos, e1r]

lemma e1_state1 : (e1BA 1).stateAt 1 = e1St 1 := by
  unfold Builder.stateAt e1BA e1St e1Prices
  refine StepState.ext ?_ ?_ ?_ ?_ ?_
  · decide
  · funext j; revert j; decide
  · funext j; revert j; decide
  · funext j; revert j; decide
  · simp only [value, PriceTable.priceAt, priorRow, rowAt, e1pos, e1r, Fin.sum_univ_two]
    norm_num [rowAt, e1pos, e1r]

lemma e1_strat1 : e1Strat (e1St 1) = (e1r 1, 2000) := by
  unfold e1Strat e1St weightsToUnits e1r
  simp only [Fin.sum_univ_two]
  norm_num
  funext j
  fin_cases j <;> norm_num

lemma e1_commit1 : (e1BA 1).commitUnits (e1r 1) = .ok (e1C 1) := by
  simp only [Builder.commitUnits, show (e1BA 1).status = Status.active 1 from rfl]
  rw [if_neg (by decide), dif_pos (by norm_num)]
  simp only [Except.ok.injEq]
  refine Builder.ext rfl rfl rfl ?_ ?_ rfl
  · funext s j; revert s j; decide
  · simp only [tradeValue, Fin.sum_univ_two, e1BA, e1C, PriceTable.priceAt, e1Prices,
      priorRow, rowAt, e1pos, e1r]
    norm_num [rowAt, e1pos, e1r]

lemma e1_setAum1 : (e1C 1).setAum 2000 = e1C 1 := by
  simp only [Builder.setAum, show (e1C 1).status = Status.active 1 from rfl]
  refine Builder.ext rfl rfl rfl rfl ?_ rfl
  simp only [value, rowAt, e1C, e1pos, e1r, PriceTable.priceAt, e1Prices, Fin.sum_univ_two]
  norm_num [rowAt, e1pos, e1r]

lemma e1_state2 : (e1BA 2).stateAt 2 = e1St 2 := by
  unfold Builder.stateAt e1BA e1St e1Prices
  refine StepState.ext ?_ ?_ ?_ ?_ ?_
  · decide
  · funext j; revert j; decide
  · funext j; revert j; decide
  · funext j; revert j; decide
  · simp only [value, PriceTable.priceAt, priorRow, rowAt, e1pos, e1r, Fin.sum_univ_two]
    norm_num [rowAt, e1pos, e1r]

lemma e1_strat2 : e1Strat (e1St 2) = (e1r 2, 1000) := by
  unfold e1Strat e1St weightsToUnits e1r
  simp only [Fin.sum_univ_two]
  norm_num
  funext j
  fin_cases j <;> norm_num

lemma e1_commit2 : (e1BA 2).commitUnits (e1r 2) = .ok (e1C 2) := by
  simp only [Builder.commitUnits, show (e1BA 2).status = Status.active 2 from rfl]
  rw [if_neg (by decide), dif_pos (by norm_num)]
  simp only [Except.ok.injEq]
  refine Builder.ext rfl rfl rfl ?_ ?_ rfl
  · funext s j; revert s j; decide
  · simp only [tradeValue, Fin.sum_univ_two, e1BA, e1C, PriceTable.priceAt, e1Prices,
      priorRow, rowAt, e1pos, e1r]
    norm_num [rowAt, e1pos, e1r]

lemma e1_setAum2 : (e1C 2).setAum 1000 = e1C 2 := by
  simp only [Builder.setAum, show (e1C 2).status = Status.active 2 from rfl]
  refine Builder.ext rfl rfl rfl rfl ?_ rfl
  simp only [value, rowAt, e1C, e1pos, e1r, PriceTable.priceAt, e1Prices, Fin.sum_univ_two]
  norm_num [rowAt, e1pos, e1r]

lemma e1_state3 : (e1BA 3).stateAt 3 = e1St 3 := by
  unfold Builder.stateAt e1BA e1St e1Prices
  refine StepState.ext ?_ ?_ ?_ ?_ ?_
  · decide
  · funext j; revert j; decide
  · funext j; revert j; decide
  · funext j; revert j; decide
  · simp only [value, PriceTable.priceAt, priorRow, rowAt, e1pos, e1r, Fin.sum_univ_two]
    norm_num [rowAt, e1pos, e1r]

lemma e1_strat3 : e1Strat (e1St 3) = (e1r 3, 1000) := by
  unfold e1Strat e1St weightsToUnits e1r
  simp only [Fin.sum_univ_two]
  norm_num
  funext j
  fin_cases j <;> norm_num

lemma e1_commit3 : (e1BA 3).commitUnits (e1r 3) = .ok (e1C 3) := by
  simp only [Builder.commitUnits, show (e1BA 3).status = Status.active 3 from rfl]
  rw [if_neg (by decide), dif_pos (by norm_num)]
  simp only [Except.ok.injEq]
  refine Builder.ext rfl rfl rfl ?_ ?_ rfl
  · funext s j; revert s j; decide
  · simp only [tradeValue, Fin.sum_univ_two, e1BA, e1C, PriceTable.priceAt, e1Prices,
      priorRow, rowAt, e1pos, e1r]
    norm_num [rowAt, e1pos, e1r]

lemma e1_setAum3 : (e1C 3).setAum 1000 = e1C 3 := by
  simp only [Builder.setAum, show (e1C 3).status = Status.active 3 from rfl]
  refine Builder.ext rfl rfl rfl rfl ?_ rfl
  simp only [value, rowAt, e1C, e1pos, e1r, PriceTable.priceAt, e1Prices, Fin.sum_univ_two]
  norm_num [rowAt, e1pos, e1r]

lemma e1_next0 : (e1C 0).next = e1BA 1 := rfl

lemma e1_next1 : (e1C 1).next = e1BA 2 := rfl

lemma e1_next2 : (e1C 2).next = e1BA 3 := rfl

lemma e1_next3 : (e1C 3).next = e1Final := rfl

lemma e1_iter3 : iterateAux e1Strat 1 (e1BA 3) = .ok ([e1St 3], e1Final) := by
  rw [iterateAux_step e1Strat 0 1 (by norm_num) (e1BA 3) (e1C 3) 3 (e1St 3) (e1r 3) 1000
    rfl e1_state3 e1_strat3 e1_commit3]
  rw [e1_setAum3, e1_next3]
  rfl

lemma e1_iter2 : iterateAux e1Strat 2 (e1BA 2) = .ok ([e1St 2, e1St 3], e1Final) := by
  rw [iterateAux_step e1Strat 1 2 (by norm_num) (e1BA 2) (e1C 2) 2 (e1St 2) (e1r 2) 1000
    rfl e1_state2 e1_strat2 e1_commit2]
  rw [e1_setAum2, e1_next2, e1_iter3]
  rfl

lemma e1_iter1 : iterateAux e1Strat 3 (e1BA 1) = .ok ([e1St 1, e1St 2, e1St 3], e1Final) := by
  rw [iterateAux_step e1Strat 2 3 (by norm_num) (e1BA 1) (e1C 1) 1 (e1St 1) (e1r 1) 2000
    rfl e1_state1 e1_strat1 e1_commit1]
  rw [e1_setAum1, e1_next1, e1_iter2]
  rfl

lemma e1_iter0 : iterateAux e1Strat 4 (e1BA 0) = .ok ([e1St 0, e1St 1, e1St 2, e1St 3], e1Final) := by
  rw [iterateAux_step e1Strat 3 4 (by norm_num) (e1BA 0) (e1C 0) 0 (e1St 0) (e1r 0) 2000
    rfl e1_state0 e1_strat0 e1_commit0]
  rw [e1_setAum0, e1_next0, e1_iter1]
  rfl

lemma e1_mk : mkBuilder e1Prices 2000 (zeroCost 2) = .ok e1B0 := by
  unfold mkBuilder
  rw [if_neg (by decide), if_neg (by decide), if_neg (by decide)]
  rfl

lemma e1_start : e1B0.startIter = .ok (e1BA 0) := by
  unfold Builder.startIter e1B0 e1BA
  norm_num

lemma e1Run_eq : e1Run = .ok (e1States, e1Final) := by
  simp only [e1Run, e1_mk, Builder.runWith, e1_start, e1_iter0, e1States]

lemma e1L_eq : e1L = e1Led := by
  simp only [e1L, e1Run_eq, Builder.build, show e1Final.status = Status.exhausted from rfl,
    Builder.consumed]
  rfl

lemma e1_cash_all : e1Led.cashAt 0 = 0 ∧ e1Led.cashAt 1 = 0 ∧
    e1Led.cashAt 2 = 0 ∧ e1Led.cashAt 3 = 0 := by
  simp only [Ledger.cashAt, Ledger.stepTrade, Ledger.stepCost, Ledger.pricesAt,
    Ledger.priorPricesAt, zeroCost, tradeValue, Fin.sum_univ_two, priorRow, rowAt,
    e1pos, e1r, e1Led, e1Prices, PriceTable.priceAt]
  norm_num [rowAt, e1pos, e1r]

lemma e1_nav_all : e1Led.navAt 0 = 2000 ∧ e1Led.navAt 1 = 2000 ∧
    e1Led.navAt 2 = 1000 ∧ e1Led.navAt 3 = 1000 := by
  have hc := e1_cash_all
  simp only [Ledger.navAt, hc.1, hc.2.1, hc.2.2.1, hc.2.2.2]
  simp only [Ledger.equityAt, Ledger.pricesAt, Ledger.unitsAt, Fin.sum_univ_two,
    rowAt, e1pos, e1r, e1Led, e1Prices, PriceTable.priceAt]
  norm_num [rowAt, e1pos, e1r]

lemma mkBuilder_ok {n m : Nat} {pt : PriceTable n m} {a : ℚ} {cm : CostModel m}
    {b : Builder n m} (h : mkBuilder pt a cm = .ok b) :
    b = ⟨pt, a, cm, fun _ _ => none, a, Status.fresh⟩ := by
  unfold mkBuilder at h
  split_ifs at h with h1 h2 h3 <;>
    first
      | exact Except.noConfusion h
      | exact (Except.ok.inj h).symm

lemma commitUnits_ok {n m : Nat} {b b1 : Builder n m} {row : Fin m → Option ℚ}
    (h : b.commitUnits row = .ok b1) :
    ∃ k : Nat, ∃ hk : k < n, b.status = Status.active k ∧
      (∀ i : Fin m, b.prices.priceAt k i = none → row i = none) ∧
      b1 = { b with
        pos := Function.update b.pos ⟨k, hk⟩ row
        cash := b.cash -
          tradeValue (fun j => b.prices.priceAt k j) (priorRow b.pos k) row } := by
  cases hs : b.status with
  | fresh => simp only [Builder.commitUnits, hs] at h; exact Except.noConfusion h
  | exhausted => simp only [Builder.commitUnits, hs] at h; exact Except.noConfusion h
  | active k =>
      simp only [Builder.commitUnits, hs] at h
      split_ifs at h with h1 h2
      all_goals
        first
          | exact Except.noConfusion h
          | (refine ⟨k, h2, rfl, fun i hpi => ?_, (Except.ok.inj h).symm⟩
             by_contra hrow
             exact h1 ⟨i, hrow, hpi⟩)

lemma setAum_fields (b : Builder n m) (a : ℚ) :
    (b.setAum a).prices = b.prices ∧ (b.setAum a).pos = b.pos ∧
      (b.setAum a).status = b.status ∧ (b.setAum a).costModel = b.costModel := by
  cases hs : b.status <;> simp [Builder.setAum, hs]

lemma next_fields (b : Builder n m) :
    (b.next).prices = b.prices ∧ (b.next).pos = b.pos ∧ (b.next).cash = b.cash ∧
      (b.next).costModel = b.costModel := by
  cases hs : b.status <;> simp [Builder.next, hs] <;> split <;> simp

lemma next_status_lt (b : Builder n m) (k : Nat) (h : b.status = Status.active k)
    (hk : k + 1 < n) : (b.next).status = Status.active (k + 1) := by
  simp only [Builder.next, h, if_pos hk]

lemma next_status_ge (b : Builder n m) (k : Nat) (h : b.status = Status.active k)
    (hk : ¬ k + 1 < n) : (b.next).status = Status.exhausted := by
  simp only [Builder.next, h, if_neg hk]

lemma iterateAux_seenTimes (strat : StepState m → (Fin m → Option ℚ) × ℚ) :
    ∀ (fuel : Nat) (b : Builder n m) (k : Nat) (sts : List (StepState m))
      (bF : Builder n m),
      b.status = Status.active k → k < n → n ≤ k + fuel →
      iterateAux strat fuel b = .ok (sts, bF) →
      sts.map (fun s => s.seenTimes) =
        (List.range' k (n - k)).map fun i => (List.range (i + 1)).map b.prices.timeAt := by
  intro fuel
  induction fuel with
  | zero => intro b k sts bF hst hk hle hrun; omega
  | succ fuel ih =>
      intro b k sts bF hst hk hle hrun
      simp only [iterateAux, hst] at hrun
      cases hc : b.commitUnits (strat (b.stateAt k)).1 with
      | error e => simp [hc] at hrun
      | ok b1 =>
          simp only [hc] at hrun
          obtain ⟨k1, hk1, hst1, hguard, hb1⟩ := commitUnits_ok hc
          rw [hst] at hst1
          injection hst1 with hkk
          subst hkk
          have hb1st : b1.status = Status.active k := by rw [hb1]; exact hst
          have hb1pr : b1.prices = b.prices := by rw [hb1]
          set b2 := (b1.setAum (strat (b.stateAt k)).2).next with hb2
          have hb2pr : b2.prices = b.prices := by
            rw [hb2, (next_fields _).1, (setAum_fields _ _).1, hb1pr]
          cases hr : iterateAux strat fuel b2 with
          | error e => simp [hr] at hrun
          | ok r =>
              rcases r with ⟨sts1, bF1⟩
              simp only [hr, Except.ok.injEq, Prod.mk.injEq] at hrun
              obtain ⟨hsts, hbF⟩ := hrun
              subst hsts
              by_cases hlt : k + 1 < n
              · have hb2st : b2.status = Status.active (k + 1) := by
                  rw [hb2]
                  exact next_status_lt _ _ (((setAum_fields b1 _).2.2.1).trans hb1st) hlt
                have h1 := ih b2 (k + 1) sts1 bF1 hb2st hlt (by omega) hr
                rw [List.map_cons, h1, hb2pr]
                rw [show n - k = (n - (k + 1)) + 1 from by omega, List.range']
                rw [List.map_cons]
                congr 1
              · have hb2st : b2.status = Status.exhausted := by
                  rw [hb2]
                  exact next_status_ge _ _ (((setAum_fields b1 _).2.2.1).trans hb1st) hlt
                have hstop := iterateAux_stopped strat fuel b2 hb2st
                rw [hstop] at hr
                simp only [Except.ok.injEq, Prod.mk.injEq] at hr
                obtain ⟨hsts1, hbF1⟩ := hr
                subst hsts1
                rw [show n - k = 1 from by omega]
                simp [List.range', Builder.stateAt]

lemma startIter_of_fresh (b : Builder n m) (hb : b.status = Status.fresh) (hn : 0 < n) :
    b.startIter = .ok { b with status := Status.active 0 } := by
  simp only [Builder.startIter, hb, if_pos hn]

lemma startIter_of_fresh_empty (b : Builder n m) (hb : b.status = Status.fresh)
    (hn : ¬ 0 < n) : b.startIter = .ok { b with status := Status.exhausted } := by
  simp only [Builder.startIter, hb, if_neg hn]

/-- Claim C9: a full traversal of a freshly constructed Accumulator yields
exactly one StepState per timestamp of the price table, in chronological
order with no skips or repeats, and the timestamp list of the k-th StepState
is exactly the prefix of the time axis ending at step k. -/
theorem traversal_shape {n m : Nat} (pt : PriceTable n m) (a : ℚ)
    (cm : CostModel m) (strat : StepState m → (Fin m → Option ℚ) × ℚ)
    (b0 bF : Builder n m) (sts : List (StepState m))
    (hmk : mkBuilder pt a cm = .ok b0)
    (hrun : b0.runWith strat = .ok (sts, bF)) :
    sts.length = n ∧
      sts.map (fun s => s.seenTimes) =
        (List.range n).map fun k => (List.range (k + 1)).map pt.timeAt := by
  have hb0 := mkBuilder_ok hmk
  subst hb0
  by_cases hn : 0 < n
  · have hsi := startIter_of_fresh (⟨pt, a, cm, fun _ _ => none, a, .fresh⟩ : Builder n m) rfl hn
    simp only [Builder.runWith, hsi] at hrun
    have h := iterateAux_seenTimes strat n _ 0 sts bF rfl hn (by omega) hrun
    have hlen := congrArg List.length h
    simp only [List.length_map, List.length_range'] at hlen
    refine ⟨by omega, ?_⟩
    rw [h, List.range_eq_range']
    simp
  · have hsi := startIter_of_fresh_empty (⟨pt, a, cm, fun _ _ => none, a, .fresh⟩ : Builder n m) rfl hn
    simp only [Builder.runWith, hsi] at hrun
    rw [iterateAux_stopped _ _ _ rfl] at hrun
    simp only [Except.ok.injEq, Prod.mk.injEq] at hrun
    obtain ⟨hsts, _⟩ := hrun
    subst hsts
    simp [show n = 0 from by omega]

lemma iterateAux_contained (strat : StepState m → (Fin m → Option ℚ) × ℚ) :
    ∀ (fuel : Nat) (b : Builder n m) (sts : List (StepState m)) (bF : Builder n m),
      iterateAux strat fuel b = .ok (sts, bF) →
      bF.prices = b.prices ∧
      ((∀ t : Fin n, ∀ i : Fin m, b.prices.price t i = none → b.pos t i = none) →
        ∀ t : Fin n, ∀ i : Fin m, bF.prices.price t i = none → bF.pos t i = none) := by
  intro fuel
  induction fuel with
  | zero =>
      intro b sts bF hrun
      simp only [iterateAux, Except.ok.injEq, Prod.mk.injEq] at hrun
      obtain ⟨-, rfl⟩ := hrun
      exact ⟨rfl, fun h => h⟩
  | succ fuel ih =>
      intro b sts bF hrun
      cases hs : b.status with
      | fresh =>
          simp only [iterateAux, hs, Except.ok.injEq, Prod.mk.injEq] at hrun
          obtain ⟨-, rfl⟩ := hrun
          exact ⟨rfl, fun h => h⟩
      | exhausted =>
          simp only [iterateAux, hs, Except.ok.injEq, Prod.mk.injEq] at hrun
          obtain ⟨-, rfl⟩ := hrun
          exact ⟨rfl, fun h => h⟩
      | active k =>
          simp only [iterateAux, hs] at hrun
          cases hc : b.commitUnits (strat (b.stateAt k)).1 with
          | error e => simp [hc] at hrun
          | ok b1 =>
              simp only [hc] at hrun
              cases hr : iterateAux strat fuel ((b1.setAum (strat (b.stateAt k)).2).next) with
              | error e => simp [hr] at hrun
              | ok r =>
                  rcases r with ⟨sts1, bF1⟩
                  simp only [hr, Except.ok.injEq, Prod.mk.injEq] at hrun
                  obtain ⟨-, rfl⟩ := hrun
                  obtain ⟨k1, hk1, hst1, hguard, hb1⟩ := commitUnits_ok hc
                  rw [hs] at hst1
                  injection hst1 with hkk
                  subst hkk
                  set b2 := (b1.setAum (strat (b.stateAt k)).2).next with hb2
                  have hb2pr : b2.prices = b.prices := by
                    rw [hb2, (next_fields _).1, (setAum_fields _ _).1, hb1]
                  have hb2pos : b2.pos = b1.pos := by
                    rw [hb2, (next_fields _).2.1, (setAum_fields _ _).2.1]
                  obtain ⟨hFpr, hFinv⟩ := ih b2 sts1 bF1 hr
                  refine ⟨hFpr.trans hb2pr, fun hinv => ?_⟩
                  apply hFinv
                  intro t i hnone
                  rw [hb2pos, hb1]
                  rw [hb2pr] at hnone
                  by_cases ht : t = ⟨k, hk1⟩
                  · subst ht
                    simp only [Function.update_same]
                    apply hguard
                    unfold PriceTable.priceAt
                    rw [dif_pos hk1]
                    exact hnone
                  · simp only [Function.update_noteq ht]
                    exact hinv t i hnone

lemma stateAt_withCost (b : Builder n m) (cm : CostModel m) (k : Nat) :
    (b.withCost cm).stateAt k = b.stateAt k := rfl

lemma commitUnits_withCost (b : Builder n m) (cm : CostModel m) (row : Fin m → Option ℚ) :
    (b.withCost cm).commitUnits row = (b.commitUnits row).map fun x => x.withCost cm := by
  have h1 : (b.withCost cm).status = b.status := rfl
  have h2 : (b.withCost cm).prices = b.prices := rfl
  have h3 : (b.withCost cm).pos = b.pos := rfl
  have h4 : (b.withCost cm).cash = b.cash := rfl
  cases hs : b.status with
  | fresh => simp only [Builder.commitUnits, h1, hs]; rfl
  | exhausted => simp only [Builder.commitUnits, h1, hs]; rfl
  | active k =>
      simp only [Builder.commitUnits, h1, h2, h3, h4, hs]
      split_ifs <;> rfl

lemma setAum_withCost (b : Builder n m) (cm : CostModel m) (a : ℚ) :
    (b.withCost cm).setAum a = (b.setAum a).withCost cm := by
  have h1 : (b.withCost cm).status = b.status := rfl
  cases hs : b.status <;> simp only [Builder.setAum, h1, hs] <;> rfl

lemma next_withCost (b : Builder n m) (cm : CostModel m) :
    (b.withCost cm).next = b.next.withCost cm := by
  have h1 : (b.withCost cm).status = b.status := rfl
  cases hs : b.status <;> simp only [Builder.next, h1, hs] <;>
    first
      | rfl
      | (split <;> rfl)

lemma iterateAux_withCost (strat : StepState m → (Fin m → Option ℚ) × ℚ) :
    ∀ (fuel : Nat) (b : Builder n m) (cm : CostModel m),
      iterateAux strat fuel (b.withCost cm) =
        (iterateAux strat fuel b).map fun r => (r.1, r.2.withCost cm) := by
  intro fuel
  induction fuel with
  | zero => intro b cm; rfl
  | succ fuel ih =>
      intro b cm
      have h1 : (b.withCost cm).status = b.status := rfl
      cases hs : b.status with
      | fresh => simp only [iterateAux, h1, hs]; rfl
      | exhausted => simp only [iterateAux, h1, hs]; rfl
      | active k =>
          simp only [iterateAux, h1, hs, stateAt_withCost, commitUnits_withCost]
          cases hc : b.commitUnits (strat (b.stateAt k)).1 with
          | error e => simp only [hc]; rfl
          | ok b1 =>
              simp only [hc, Except.map, setAum_withCost, next_withCost, ih]
              cases hr : iterateAux strat fuel ((b1.setAum (strat (b.stateAt k)).2).next) with
              | error e => simp only [hr]
              | ok r => rcases r with ⟨sts1, bF1⟩; simp only [hr]

lemma startIter_withCost (b : Builder n m) (cm : CostModel m) :
    (b.withCost cm).startIter = (b.startIter).map fun x => x.withCost cm := by
  have h1 : (b.withCost cm).status = b.status := rfl
  cases hs : b.status <;> simp only [Builder.startIter, h1, hs] <;>
    first
      | rfl
      | (split <;> rfl)

lemma runWith_withCost (b : Builder n m) (cm : CostModel m)
    (strat : StepState m → (Fin m → Option ℚ) × ℚ) :
    (b.withCost cm).runWith strat =
      (b.runWith strat).map fun r => (r.1, r.2.withCost cm) := by
  simp only [Builder.runWith, startIter_withCost]
  cases hs : b.startIter with
  | error e => simp only [hs]; rfl
  | ok b0 => simp only [hs, Except.map, iterateAux_withCost]

/-- Claim C5: no look-ahead — two Ledgers over the same prices, initial AUM
and cost model whose position rows agree strictly before step t (and differ
at t) have identical cash, equity and NAV at every step strictly before t;
and equity at any step is valued from the row and the price of that step. -/
theorem no_lookahead {n m : Nat} (L1 L2 : Ledger n m) (t : Nat)
    (hpr : L1.prices = L2.prices) (ha : L1.initialAum = L2.initialAum)
    (hcm : L1.costModel = L2.costModel)
    (hpos : ∀ s, s < t → ∀ j, rowAt L1.pos s j = rowAt L2.pos s j)
    (hdiff : ∃ j, rowAt L1.pos t j ≠ rowAt L2.pos t j) :
    (∀ s, s < t →
      L1.cashAt s = L2.cashAt s ∧ (∀ j, L1.equityAt s j = L2.equityAt s j) ∧
        L1.navAt s = L2.navAt s) ∧
    (∀ s j, L1.equityAt s j =
      (L1.pricesAt s j).bind fun p => (rowAt L1.pos s j).map fun u => u * p) := by
  have hrow : ∀ s, s < t → rowAt L1.pos s = rowAt L2.pos s :=
    fun s hs => funext (hpos s hs)
  have hpat : ∀ s, L1.pricesAt s = L2.pricesAt s := by
    intro s; unfold Ledger.pricesAt; rw [hpr]
  have hprior : ∀ s, s < t → priorRow L1.pos s = priorRow L2.pos s := by
    intro s hs
    unfold priorRow
    cases s with
    | zero => rfl
    | succ s => simp only [Nat.succ_ne_zero, if_false, Nat.add_sub_cancel]
                exact hrow s (by omega)
  have hppat : ∀ s, L1.priorPricesAt s = L2.priorPricesAt s := by
    intro s; unfold Ledger.priorPricesAt; rw [hpat]
  have htr : ∀ s, s < t → L1.stepTrade s = L2.stepTrade s := by
    intro s hs
    unfold Ledger.stepTrade
    rw [hpat, hprior s hs, hrow s hs]
  have hco : ∀ s, s < t → L1.stepCost s = L2.stepCost s := by
    intro s hs
    unfold Ledger.stepCost
    rw [hcm, hpat, hprior s hs, hrow s hs, hppat]
  have hcash : ∀ s, s < t → L1.cashAt s = L2.cashAt s := by
    intro s
    induction s with
    | zero =>
        intro hs
        simp only [Ledger.cashAt]
        rw [ha, htr 0 hs, hco 0 hs]
    | succ s ih =>
        intro hs
        simp only [Ledger.cashAt]
        rw [ih (by omega), htr (s + 1) hs, hco (s + 1) hs]
  have heq : ∀ s, s < t → ∀ j, L1.equityAt s j = L2.equityAt s j := by
    intro s hs j
    unfold Ledger.equityAt Ledger.unitsAt
    rw [hpat, hpos s hs j]
  refine ⟨fun s hs => ⟨hcash s hs, heq s hs, ?_⟩, fun s j => rfl⟩
  unfold Ledger.navAt
  rw [hcash s hs]
  congr 1
  exact Finset.sum_congr rfl fun j _ => by rw [heq s hs j]

lemma e1RunWith_eq : e1B0.runWith e1Strat = .ok (e1States, e1Final) := by
  have h := e1Run_eq
  simp only [e1Run, e1_mk] at h
  exact h

lemma e1_weight_all :
    e1Led.weightAt 0 0 = some (1/2) ∧ e1Led.weightAt 0 1 = some (1/2) ∧
    e1Led.weightAt 1 0 = some (1/2) ∧ e1Led.weightAt 1 1 = some (1/2) ∧
    e1Led.weightAt 2 0 = some 1 ∧ e1Led.weightAt 2 1 = none ∧
    e1Led.weightAt 3 0 = some 1 ∧ e1Led.weightAt 3 1 = none := by
  have hn := e1_nav_all
  simp only [Ledger.weightAt, Ledger.equityAt, Ledger.pricesAt, Ledger.unitsAt,
    hn.1, hn.2.1, hn.2.2.1, hn.2.2.2]
  simp only [rowAt, e1pos, e1r, e1Led, e1Prices, PriceTable.priceAt]
  norm_num [rowAt, e1pos, e1r]

/-- Claim C2: for every built Ledger and every timestamp of its time axis,
NAV equals cash plus the sum of units times price over the assets where both
are defined (the tradable ones); in this exact-rational model the NAV is a
well-defined rational everywhere, so no NaN can arise. -/
theorem nav_accounting_identity {n m : Nat} (L : Ledger n m) (t : Nat)
    (ht : t < L.horizon) :
    L.navAt t = L.cashAt t +
      ∑ j : Fin m,
        ((L.prices.priceAt t j).bind fun p => (rowAt L.pos t j).map fun u => u * p).getD 0 := by
  rfl

theorem nav_accounting_identity_witness : 0 < e1L.horizon ∧
    e1L.navAt 0 = e1L.cashAt 0 +
      ∑ j : Fin 2,
        ((e1L.prices.priceAt 0 j).bind fun p => (rowAt e1L.pos 0 j).map fun u => u * p).getD 0 :=
  ⟨by rw [e1L_eq]; norm_num [e1Led], nav_accounting_identity e1L 0 (by rw [e1L_eq]; norm_num [e1Led])⟩

/-- Claim C3 (amended): the Ledger's cash series satisfies the sequential
recurrence — the first balance is the initial AUM minus the value of the
step-0 trade from a flat position minus its cost, and each later balance is
the prior balance minus the step's trade value minus its cost; the cost
model returns a non-negative scalar and is never consulted during iteration:
a run with a different cost model yields the same states and final table. -/
theorem cash_walk_recurrence {n m : Nat} (L : Ledger n m) (t : Nat) (b : Builder n m)
    (cm : CostModel m) (strat : StepState m → (Fin m → Option ℚ) × ℚ) :
    L.cashAt 0 = L.initialAum -
        tradeValue (L.pricesAt 0) (fun _ => none) (rowAt L.pos 0) - L.stepCost 0 ∧
    L.cashAt (t + 1) = L.cashAt t -
        tradeValue (L.pricesAt (t + 1)) (rowAt L.pos t) (rowAt L.pos (t + 1)) -
        L.stepCost (t + 1) ∧
    0 ≤ L.stepCost t ∧
    (b.withCost cm).runWith strat = (b.runWith strat).map fun r => (r.1, r.2.withCost cm) :=
  ⟨rfl, rfl, L.costModel.cost_nonneg _ _ _ _, runWith_withCost b cm strat⟩

/-- Counterexample to claim C3 as stated: in the E1 scenario with the
zero-cost model the claimed first balance, initial AUM minus the step-0
trading cost, is 2000, while the Ledger's cash at the first timestamp is 0 —
the value of the step-0 trade itself is also deducted. -/
theorem cash_step0_counterexample :
    e1L.cashAt 0 = 0 ∧ e1L.initialAum - e1L.stepCost 0 = 2000 ∧
      e1L.cashAt 0 ≠ e1L.initialAum - e1L.stepCost 0 := by
  have h1 : e1L.cashAt 0 = 0 := by rw [e1L_eq]; exact e1_cash_all.1
  have h2 : e1L.initialAum - e1L.stepCost 0 = 2000 := by
    rw [e1L_eq]
    simp only [Ledger.stepCost, e1Led, zeroCost]
    norm_num
  exact ⟨h1, h2, by rw [h1, h2]; norm_num⟩

/-- Claim C4: the three position writers are views over the same unit
storage — writing weights stores units w × AUM / price elementwise,
recomputing weights from those units with the same AUM and price reproduces
w exactly, cash amounts store notional / price, and the weights and cash
writers commit exactly the unit rows obtained by conversion. -/
theorem position_writer_equivalence {n m : Nat} (b : Builder n m) (k : Nat)
    (w c : Fin m → Option ℚ) (j : Fin m) (p wj cj : ℚ)
    (hst : b.status = Status.active k)
    (hp : b.prices.priceAt k j = some p) (hw : w j = some wj) (hc : c j = some cj)
    (hp0 : p ≠ 0) (ha0 : (b.stateAt k).aum ≠ 0) :
    weightsToUnits (fun i => b.prices.priceAt k i) (b.stateAt k).aum w j
        = some (wj * (b.stateAt k).aum / p) ∧
    wj * (b.stateAt k).aum / p * p / (b.stateAt k).aum = wj ∧
    cashToUnits (fun i => b.prices.priceAt k i) c j = some (cj / p) ∧
    b.commitWeights w =
      b.commitUnits (weightsToUnits (fun i => b.prices.priceAt k i) (b.stateAt k).aum w) ∧
    b.commitCashAmounts c =
      b.commitUnits (cashToUnits (fun i => b.prices.priceAt k i) c) := by
  refine ⟨?_, ?_, ?_, ?_, ?_⟩
  · simp only [weightsToUnits, hw, hp, Option.map_some', Option.getD_some]
  · field_simp
  · simp only [cashToUnits, hc, hp, Option.map_some', Option.getD_some]
  · simp only [Builder.commitWeights, hst]
  · simp only [Builder.commitCashAmounts, hst]

/-- Claim C6: Accumulator construction fails with a configuration error
exactly when the price table has an interior no-data gap, or the time axis
is not strictly increasing, or the initial AUM is non-positive; otherwise it
returns the fresh Accumulator. -/
theorem construction_checks {n m : Nat} (pt : PriceTable n m) (a : ℚ) (cm : CostModel m) :
    (mkBuilder pt a cm = .error .configurationError ↔
      pt.hasInteriorGap ∨ ¬ pt.strictTimes ∨ a ≤ 0) ∧
    (¬ pt.hasInteriorGap → pt.strictTimes → 0 < a →
      mkBuilder pt a cm = .ok ⟨pt, a, cm, fun _ _ => none, a, Status.fresh⟩) := by
  constructor
  · unfold mkBuilder
    split_ifs with h1 h2 h3 <;>
      first
        | exact iff_of_true rfl (by tauto)
        | exact iff_of_false (by simp) (by tauto)
  · intro h1 h2 h3
    unfold mkBuilder
    rw [if_neg h1, if_neg (not_not_intro h2), if_neg (not_le.mpr h3)]

theorem construction_checks_witness :
    ¬ e1Prices.hasInteriorGap ∧ e1Prices.strictTimes ∧ (0 : ℚ) < 2000 ∧
    mkBuilder e1Prices 2000 (zeroCost 2) =
      .ok ⟨e1Prices, 2000, zeroCost 2, fun _ _ => none, 2000, Status.fresh⟩ :=
  ⟨by decide, by decide, by norm_num,
    (construction_checks e1Prices 2000 (zeroCost 2)).2 (by decide) (by decide) (by norm_num)⟩

/-- Claim C8: protocol violations raise usage errors — building an
Accumulator whose iteration never started fails, and starting a traversal of
an exhausted Accumulator fails. -/
theorem protocol_usage_errors {n m : Nat} (b : Builder n m) :
    (b.status = Status.fresh → b.build = .error .usageError) ∧
    (b.status = Status.exhausted → b.startIter = .error .usageError) := by
  constructor
  · intro h; simp only [Builder.build, h]
  · intro h; simp only [Builder.startIter, h]

theorem protocol_usage_errors_witness :
    e1B0.build = .error .usageError ∧ e1Final.startIter = .error .usageError :=
  ⟨(protocol_usage_errors e1B0).1 rfl, (protocol_usage_errors e1Final).2 rfl⟩

/-- Claim C7: tradability containment — every Ledger position table produced
by a run is undefined wherever prices are undefined, and writing a position
for an asset with no price at the current step, through any of the three
writers, fails with a domain error (so no new state is produced). -/
theorem tradability_containment {n m : Nat} (pt : PriceTable n m) (a : ℚ)
    (cm : CostModel m) (strat : StepState m → (Fin m → Option ℚ) × ℚ)
    (b : Builder n m) (k : Nat) (j : Fin m) (row w c : Fin m → Option ℚ) :
    (∀ b0 sts bF, mkBuilder pt a cm = .ok b0 → b0.runWith strat = .ok (sts, bF) →
      ∀ t : Fin n, ∀ i : Fin m, pt.price t i = none → bF.pos t i = none) ∧
    (b.status = Status.active k → b.prices.priceAt k j = none → row j ≠ none →
      b.commitUnits row = .error .domainError) ∧
    (b.status = Status.active k → b.prices.priceAt k j = none → w j ≠ none →
      b.commitWeights w = .error .domainError) ∧
    (b.status = Status.active k → b.prices.priceAt k j = none → c j ≠ none →
      b.commitCashAmounts c = .error .domainError) := by
  have hreject : ∀ (row1 : Fin m → Option ℚ), b.status = Status.active k →
      b.prices.priceAt k j = none → row1 j ≠ none →
      b.commitUnits row1 = .error .domainError := by
    intro row1 hst hpn hr
    simp only [Builder.commitUnits, hst]
    rw [if_pos ⟨j, hr, hpn⟩]
  refine ⟨?_, hreject row, ?_, ?_⟩
  · intro b0 sts bF hmk hrun t i hnone
    have hb0 := mkBuilder_ok hmk
    subst hb0
    by_cases hn : 0 < n
    · have hsi := startIter_of_fresh (⟨pt, a, cm, fun _ _ => none, a, .fresh⟩ : Builder n m) rfl hn
      simp only [Builder.runWith, hsi] at hrun
      obtain ⟨hFpr, hFinv⟩ := iterateAux_contained strat n _ sts bF hrun
      exact hFinv (fun _ _ _ => rfl) t i (by rw [hFpr]; exact hnone)
    · have hsi := startIter_of_fresh_empty (⟨pt, a, cm, fun _ _ => none, a, .fresh⟩ : Builder n m) rfl hn
      simp only [Builder.runWith, hsi] at hrun
      rw [iterateAux_stopped _ _ _ rfl] at hrun
      simp only [Except.ok.injEq, Prod.mk.injEq] at hrun
      obtain ⟨-, rfl⟩ := hrun
      rfl
  · intro hst hpn hw
    simp only [Builder.commitWeights, hst]
    apply hreject _ hst hpn
    obtain ⟨wj, hwj⟩ := Option.ne_none_iff_exists'.mp hw
    unfold weightsToUnits
    rw [hwj]
    simp
  · intro hst hpn hc
    simp only [Builder.commitCashAmounts, hst]
    apply hreject _ hst hpn
    obtain ⟨cj, hcj⟩ := Option.ne_none_iff_exists'.mp hc
    unfold cashToUnits
    rw [hcj]
    simp

/-- Claim C1: in the E1 scenario — two assets over four timestamps, asset A
constant at 100, asset B at 200 then delisted, initial AUM 2000, equal
weights over the tradable assets at every step — iterating the Accumulator
and building the Ledger yields units 10 for A at every timestamp, units 5
then no data for B, and the NAV series 2000, 2000, 1000, 1000: the delisted
equity is dropped, not converted to cash. -/
theorem e1_fading_out_scenario :
    e1Run = .ok (e1States, e1Final) ∧
    (∀ t : Fin 4, e1L.unitsAt t.val 0 = some 10) ∧
    e1L.unitsAt 0 1 = some 5 ∧ e1L.unitsAt 1 1 = some 5 ∧
    e1L.unitsAt 2 1 = none ∧ e1L.unitsAt 3 1 = none ∧
    e1L.navAt 0 = 2000 ∧ e1L.navAt 1 = 2000 ∧ e1L.navAt 2 = 1000 ∧ e1L.navAt 3 = 1000 := by
  rw [e1L_eq]
  have hn := e1_nav_all
  exact ⟨e1Run_eq, by decide, by decide, by decide, by decide, by decide,
    hn.1, hn.2.1, hn.2.2.1, hn.2.2.2⟩

/-- Claim C10: in the E1 scenario the built portfolio's weights are 0.5 for
both assets at the first two timestamps and, after asset B delists, 1.0 for
the surviving asset with no data for B, while the cash balance is zero at
every step — after delisting the whole NAV sits in the surviving equity. -/
theorem e1_weights_and_cash :
    (∀ t : Fin 4, e1L.cashAt t.val = 0) ∧
    e1L.weightAt 0 0 = some (1/2) ∧ e1L.weightAt 0 1 = some (1/2) ∧
    e1L.weightAt 1 0 = some (1/2) ∧ e1L.weightAt 1 1 = some (1/2) ∧
    e1L.weightAt 2 0 = some 1 ∧ e1L.weightAt 2 1 = none ∧
    e1L.weightAt 3 0 = some 1 ∧ e1L.weightAt 3 1 = none := by
  rw [e1L_eq]
  have hc := e1_cash_all
  have hw := e1_weight_all
  refine ⟨?_, hw.1, hw.2.1, hw.2.2.1, hw.2.2.2.1, hw.2.2.2.2.1, hw.2.2.2.2.2.1,
    hw.2.2.2.2.2.2.1, hw.2.2.2.2.2.2.2⟩
  intro t
  fin_cases t
  · exact hc.1
  · exact hc.2.1
  · exact hc.2.2.1
  · exact hc.2.2.2

theorem position_writer_equivalence_witness :
    (w4B.stateAt 0).aum = 100 ∧
    (weightsToUnits (fun i => w4B.prices.priceAt 0 i) (w4B.stateAt 0).aum
        (fun _ => some (1/2)) 0 = some ((1/2) * (w4B.stateAt 0).aum / 10) ∧
      (1/2) * (w4B.stateAt 0).aum / 10 * 10 / (w4B.stateAt 0).aum = 1/2 ∧
      cashToUnits (fun i => w4B.prices.priceAt 0 i) (fun _ => some 30) 0 = some (30 / 10) ∧
      w4B.commitWeights (fun _ => some (1/2)) =
        w4B.commitUnits (weightsToUnits (fun i => w4B.prices.priceAt 0 i)
          (w4B.stateAt 0).aum (fun _ => some (1/2))) ∧
      w4B.commitCashAmounts (fun _ => some 30) =
        w4B.commitUnits (cashToUnits (fun i => w4B.prices.priceAt 0 i) (fun _ => some 30))) := by
  have haum : (w4B.stateAt 0).aum = 100 := by
    simp only [Builder.stateAt, w4B, w4Prices, value, PriceTable.priceAt, priorRow,
      Fin.sum_univ_one]
    norm_num
  refine ⟨haum, position_writer_equivalence w4B 0 (fun _ => some (1/2)) (fun _ => some 30)
    0 10 (1/2) 30 rfl (by decide) rfl rfl (by norm_num) (by rw [haum]; norm_num)⟩

theorem no_lookahead_witness :
    (∃ j : Fin 1, rowAt w5L1.pos 1 j ≠ rowAt w5L2.pos 1 j) ∧
    (∀ s, s < 1 →
      w5L1.cashAt s = w5L2.cashAt s ∧ (∀ j, w5L1.equityAt s j = w5L2.equityAt s j) ∧
        w5L1.navAt s = w5L2.navAt s) ∧
    (∀ s (j : Fin 1), w5L1.equityAt s j =
      (w5L1.pricesAt s j).bind fun p => (rowAt w5L1.pos s j).map fun u => u * p) := by
  have h := no_lookahead w5L1 w5L2 1 rfl rfl rfl
      (fun s hs j => by
        have hs0 : s = 0 := by omega
        subst hs0
        revert j
        decide)
      ⟨0, by decide⟩
  exact ⟨⟨0, by decide⟩, h.1, h.2⟩

theorem tradability_containment_witness :
    (∀ t : Fin 4, ∀ i : Fin 2, e1Prices.price t i = none → e1Final.pos t i = none) ∧
    (e1BA 2).commitUnits (fun _ => some 1) = .error .domainError ∧
    (e1BA 2).commitWeights (fun _ => some (1/2)) = .error .domainError ∧
    (e1BA 2).commitCashAmounts (fun _ => some 30) = .error .domainError := by
  have h := tradability_containment e1Prices 2000 (zeroCost 2) e1Strat (e1BA 2) 2
    (1 : Fin 2) (fun _ => some 1) (fun _ => some (1/2)) (fun _ => some 30)
  exact ⟨h.1 e1B0 e1States e1Final e1_mk e1RunWith_eq,
    h.2.1 rfl (by decide) (by decide),
    h.2.2.1 rfl (by decide) (by decide),
    h.2.2.2 rfl (by decide) (by decide)⟩

theorem traversal_shape_witness :
    e1States.length = 4 ∧
      e1States.map (fun s => s.seenTimes) =
        (List.range 4).map fun k => (List.range (k + 1)).map e1Prices.timeAt :=
  traversal_shape e1Prices 2000 (zeroCost 2) e1Strat e1B0 e1Final e1States
    e1_mk e1RunWith_eq

end CvxSimulator
